import Mathlib

/-!
Shallow embedding of the replayed-portal core: the InputStep data model and
its validators, the legacy-format migration, mnemonic name validation, the
Mongoose persistence-level schema checks, the mnemonic create/update command
pipelines, Bearer-token verification, the hybrid authentication resolver,
and the cascading folder delete handler.  Pure functions are translated
directly from the TypeScript source; database round trips are modelled as
explicit state passing over lists of records; cryptographic primitives
(JWT signing/verification, reversible encryption) are abstracted as function
parameters.
-/

namespace Portal

/-! ## JSON values

A decoded JSON value as produced by `JSON.parse` / `request.json()`.
Numbers are modelled as integers; none of the validators in scope inspect
numeric values beyond their (non-string) type. -/

inductive Json where
  | null : Json
  | bool (b : Bool) : Json
  | num (n : Int) : Json
  | str (s : String) : Json
  | arr (elems : List Json) : Json
  | obj (fields : List (String × Json)) : Json

namespace Json

/-- Property lookup `v[k]` on a decoded JSON value.  Only objects carry
own-properties named by the keys the validators read (`type`, `value`,
`key`, `command`, `inputs`, `commands`); on every other value the lookup
yields JavaScript `undefined`, modelled as `none`. -/
def getField : Json → String → Option Json
  | obj fields, k => (fields.find? (fun p => p.1 = k)).map (fun p => p.2)
  | _, _ => none

/-- JavaScript truthiness of a decoded JSON value: `null`, `false`, `0` and
`""` are falsy; objects and arrays (even empty ones) are truthy. -/
def truthy : Json → Bool
  | null => false
  | bool b => b
  | num n => n != 0
  | str s => s ≠ ""
  | arr _ => true
  | obj _ => true

/-- `typeof v === "object"`: true for objects, arrays and `null`. -/
def typeofObject : Json → Bool
  | obj _ => true
  | arr _ => true
  | null => true
  | _ => false

end Json

/-! ## String trimming

`String.prototype.trim` removes leading and trailing whitespace.  The
sources only ever trim over ASCII whitespace, modelled by `Char.isWhitespace`
(space, tab, newline, carriage return). -/

/-- Leading-whitespace removal on a character list. -/
def ltrimList (l : List Char) : List Char := l.dropWhile Char.isWhitespace

/-- Trailing-whitespace removal on a character list. -/
def rtrimList (l : List Char) : List Char :=
  ((l.reverse).dropWhile Char.isWhitespace).reverse

/-- Model of `s.trim()`. -/
def jsTrim (s : String) : String := String.mk (rtrimList (ltrimList s.data))

theorem dropWhile_dropWhile {α : Type} (p : α → Bool) (l : List α) :
    (l.dropWhile p).dropWhile p = l.dropWhile p := by
  induction l with
  | nil => rfl
  | cons a l ih =>
    by_cases h : p a
    · simp [List.dropWhile, h, ih]
    · simp [List.dropWhile, h]

theorem rtrimList_idem (l : List Char) : rtrimList (rtrimList l) = rtrimList l := by
  unfold rtrimList
  rw [List.reverse_reverse, dropWhile_dropWhile]

theorem rtrimList_prefix (l : List Char) : (rtrimList l).IsPrefix l := by
  unfold rtrimList
  have h := List.dropWhile_suffix (l := l.reverse) (p := Char.isWhitespace)
  obtain ⟨t, ht⟩ := h
  refine ⟨t.reverse, ?_⟩
  have := congrArg List.reverse ht
  simpa using this

theorem head_not_ws_of_ltrim {l : List Char} {c : Char} {m : List Char}
    (h : ltrimList l = c :: m) : Char.isWhitespace c = false := by
  induction l with
  | nil => simp [ltrimList, List.dropWhile] at h
  | cons a l ih =>
    unfold ltrimList List.dropWhile at h
    by_cases ha : Char.isWhitespace a
    · simp [ha] at h
      exact ih h
    · simp [ha] at h
      obtain ⟨h1, _⟩ := h
      rw [← h1]
      exact Bool.eq_false_iff.mpr ha

theorem ltrim_eq_self_of_head {l : List Char}
    (h : ∀ c m, l = c :: m → Char.isWhitespace c = false) :
    ltrimList l = l := by
  cases l with
  | nil => rfl
  | cons a m =>
    have := h a m rfl
    simp [ltrimList, List.dropWhile, this]

theorem ltrimList_idem (l : List Char) : ltrimList (ltrimList l) = ltrimList l :=
  dropWhile_dropWhile _ _

/-- Removing trailing whitespace after removing leading whitespace leaves no
leading whitespace to remove: the two passes commute into idempotence. -/
theorem ltrim_rtrim_ltrim (l : List Char) :
    ltrimList (rtrimList (ltrimList l)) = rtrimList (ltrimList l) := by
  apply ltrim_eq_self_of_head
  intro c m h
  obtain ⟨t, ht⟩ := rtrimList_prefix (ltrimList l)
  rw [h] at ht
  exact head_not_ws_of_ltrim (l := l) ht.symm

/-- `trim` is idempotent. -/
theorem jsTrim_idem (s : String) : jsTrim (jsTrim s) = jsTrim s := by
  unfold jsTrim
  rw [ltrim_rtrim_ltrim, rtrimList_idem]

/-! ## InputStep validation — `src/lib/tokens.ts` (import validator) -/

/-- The seven named control keys accepted for a `key` step. -/
def keyNames : List String := ["up", "down", "left", "right", "space", "tab", "backspace"]

/-- `isValidInputStep` from `src/lib/tokens.ts`.  The source first rejects
falsy or non-`object` values (`!step || typeof step !== 'object'`); arrays
pass that guard but carry none of the `type`/`value`/`key` properties, so
every subsequent branch falls through to `false`, which the `.arr` case
reflects directly.  For `type: "text"` it requires `typeof step.value ===
'string'`; `type: "enter"` is accepted unconditionally; `type: "key"`
requires `step.key` to be one of the seven named keys (strict string
equality inside `Array.prototype.includes`). -/
def isValidInputStep (step : Json) : Bool :=
  match step with
  | .obj _ =>
    match step.getField "type" with
    | some (.str t) =>
      if t = "text" then
        match step.getField "value" with
        | some (.str _) => true
        | _ => false
      else if t = "enter" then true
      else if t = "key" then
        match step.getField "key" with
        | some (.str k) => keyNames.contains k
        | _ => false
      else false
    | _ => false
  | _ => false

/-- `isValidCommand` from `src/lib/tokens.ts`: an object whose `command`
property is a string that is non-empty after trimming and whose `inputs`
property is an array of valid input steps. -/
def isValidCommand (cmd : Json) : Bool :=
  match cmd with
  | .obj _ =>
    match cmd.getField "command" with
    | some (.str s) =>
      if jsTrim s = "" then false
      else
        match cmd.getField "inputs" with
        | some (.arr inputs) => inputs.all isValidInputStep
        | _ => false
    | _ => false
  | _ => false

/-! ## InputStep validation — `src/types/mnemonic.ts` (request validator) -/

/-- `isTextStep` from `src/types/mnemonic.ts`: `step && step.type === "text"
&& typeof step.value === "string"`. -/
def isTextStep (step : Json) : Bool :=
  step.truthy &&
    (match step.getField "type" with
     | some (.str "text") =>
       (match step.getField "value" with
        | some (.str _) => true
        | _ => false)
     | _ => false)

/-- `isEnterStep` from `src/types/mnemonic.ts`: `step && step.type === "enter"`. -/
def isEnterStep (step : Json) : Bool :=
  step.truthy &&
    (match step.getField "type" with
     | some (.str "enter") => true
     | _ => false)

/-- `isKeyStep` from `src/types/mnemonic.ts`: `step && step.type === "key"
&& typeof step.key === "string" && [seven keys].includes(step.key)`. -/
def isKeyStep (step : Json) : Bool :=
  step.truthy &&
    (match step.getField "type" with
     | some (.str "key") =>
       (match step.getField "key" with
        | some (.str k) => keyNames.contains k
        | _ => false)
     | _ => false)

/-- `isValidInputStep` from `src/types/mnemonic.ts` (used by the mnemonic
create/update route handlers). -/
def mnemonicIsValidInputStep (step : Json) : Bool :=
  isTextStep step || isEnterStep step || isKeyStep step

/-! ## Legacy-format migration — `src/lib/migrationHelpers.ts` -/

/-- One entry of a command's `inputs` array as it may occur across the
schema generations handled by the migration layer: an intermediate-shape
freeform string, or a current-shape `InputStep`. -/
inductive MigInput where
  | str (s : String) : MigInput
  | stepText (value : String) : MigInput
  | stepEnter : MigInput
  | stepKey (key : String) : MigInput
deriving DecidableEq, Repr

/-- The `Command` record of `src/lib/migrationHelpers.ts`: a command string
plus an `inputs` array (freeform strings in the intermediate shape,
`InputStep` objects in the current shape). -/
structure MigCommand where
  command : String
  inputs : List MigInput
deriving DecidableEq, Repr

/-- The argument type of `migrateCommands`: `string[] | Command[]`. -/
inductive CommandsVal where
  | strs (l : List String) : CommandsVal
  | cmds (l : List MigCommand) : CommandsVal
deriving DecidableEq, Repr

/-- `migrateCommands` from `src/lib/migrationHelpers.ts`.  An empty (or
absent) array collapses to the single placeholder command; otherwise the
first element is inspected: an object bearing a `command` property means the
array is already in object shape and is returned unchanged (`return
commands as Command[]`), and a string first element means the whole array is
the oldest shape and each string becomes `{command: s, inputs: []}`. -/
def migrateCommands : CommandsVal → List MigCommand
  | .strs [] => [⟨"", []⟩]
  | .cmds [] => [⟨"", []⟩]
  | .cmds l => l
  | .strs l => l.map (fun s => ⟨s, []⟩)

/-! ## Mnemonic name validation — `src/lib/validation.ts` -/

/-- Model of `MNEMONIC_NAME_REGEX.test(s)` for
`/^[a-z][a-z0-9-_]{0,49}$/`: a first lowercase letter followed by at most
49 characters drawn from lowercase letters, digits, hyphen and underscore. -/
def nameRegexTest (s : String) : Bool :=
  match s.data with
  | [] => false
  | c :: rest =>
    ('a' ≤ c && c ≤ 'z') &&
    rest.length ≤ 49 &&
    rest.all (fun d =>
      ('a' ≤ d && d ≤ 'z') || ('0' ≤ d && d ≤ '9') || d = '-' || d = '_')

/-- `validateMnemonicName` from `src/lib/validation.ts`, reduced to its
`isValid` bit: reject a falsy (empty) name, trim it, reject when the trimmed
name is empty or fails the regex. -/
def validateMnemonicName (name : String) : Bool :=
  if name = "" then false
  else if jsTrim name = "" then false
  else nameRegexTest (jsTrim name)

/-! ## Import validation — `validateImportJson` in `src/lib/tokens.ts` -/

/-- A normalized `MnemonicCommand` as produced by the command pipelines: a
(trimmed) command string and the `inputs` array, kept as JSON values. -/
structure CleanCommand where
  command : String
  inputs : List Json


/-- Read a field the source accesses with an `as string` cast after
validation has established it is a string. -/
def getStrField (j : Json) (k : String) : String :=
  match j.getField k with
  | some (.str s) => s
  | _ => ""

/-- Read a field validation has established to be an array. -/
def getArrField (j : Json) (k : String) : List Json :=
  match j.getField k with
  | some (.arr l) => l
  | _ => []

/-- The per-step cleanup inside `validateImportJson`: rebuild each validated
input step as a fresh object carrying exactly the fields of its variant
(`{type, value}`, `{type}`, `{type, key}`), with a defensive
`{type: "text", value: ""}` fallback for an unrecognized `type`.  The
`value`/`key` copies are plain property reads (`inputObj.value as string` is
a compile-time cast); validation guarantees they are strings, and a missing
field is modelled as `Json.null`. -/
def cleanupStep (input : Json) : Json :=
  match input.getField "type" with
  | some (.str "text") => .obj [("type", .str "text"), ("value", (input.getField "value").getD .null)]
  | some (.str "enter") => .obj [("type", .str "enter")]
  | some (.str "key") => .obj [("type", .str "key"), ("key", (input.getField "key").getD .null)]
  | _ => .obj [("type", .str "text"), ("value", .str "")]

/-- The per-command conversion inside `validateImportJson`: trim the command
string and clean up every input step. -/
def convertImportCommand (cmd : Json) : CleanCommand :=
  ⟨jsTrim (getStrField cmd "command"), (getArrField cmd "inputs").map cleanupStep⟩

/-- Result of `validateImportJson` (the `error` messages of the source are
kept without the interpolated failing index). -/
inductive ImportResult where
  | invalid (error : String) : ImportResult
  | valid (commands : List CleanCommand) : ImportResult

/-- `validateImportJson` from `src/lib/tokens.ts`, applied to the already
parsed JSON value (`JSON.parse` and its exception path are library
behaviour outside this embedding).  The source iterates `commands` with an
index and reports the first invalid one; only the valid/invalid outcome is
relevant here, so the iteration is folded into `List.all`. -/
def validateImportJson (parsed : Json) : ImportResult :=
  if !(parsed.truthy && parsed.typeofObject) then
    .invalid "Invalid JSON: Root must be an object"
  else
    match parsed.getField "commands" with
    | some (.arr cmds) =>
      if cmds.length = 0 then
        .invalid "Invalid format: At least one command is required"
      else if cmds.all isValidCommand then
        .valid (cmds.map convertImportCommand)
      else
        .invalid "Invalid command: Command must have command (string) and inputs (array of InputStep)"
    | _ => .invalid "Invalid format: commands must be an array"

/-! ## Route-level command validation — `src/app/api/mnemonics/route.ts`
and `src/app/api/mnemonics/[id]/route.ts` -/

/-- The per-element check of `validateMnemonicCommands`: an object (non-null)
whose `command` is a string non-empty after trimming, and whose `inputs`
field, when present, is an array of steps each accepted by the
`src/types/mnemonic.ts` validator. -/
def routeValidCommand (cmd : Json) : Bool :=
  match cmd with
  | .null => false
  | _ =>
    if !cmd.typeofObject then false
    else
      match cmd.getField "command" with
      | some (.str s) =>
        if jsTrim s = "" then false
        else
          match cmd.getField "inputs" with
          | none => true
          | some (.arr li) => li.all mnemonicIsValidInputStep
          | some _ => false
      | _ => false

/-- `validateMnemonicCommands` from the mnemonic create/update handlers. -/
def validateMnemonicCommands (commands : Json) : Bool :=
  match commands with
  | .arr l => l.all routeValidCommand
  | _ => false

/-- The `cleanCommands` normalization shared by the create and update
handlers: drop commands that are blank after trimming, trim the rest, and
default a missing `inputs` field to the empty array (`cmd.inputs || []`;
after validation `inputs` is either absent or an array, and arrays are
always truthy). -/
def cleanCommands (l : List Json) : List CleanCommand :=
  (l.filter (fun cmd => jsTrim (getStrField cmd "command") ≠ "")).map
    (fun cmd =>
      ⟨jsTrim (getStrField cmd "command"),
       match cmd.getField "inputs" with
       | some (.arr li) => li
       | _ => []⟩)

/-! ## Persistence-level validation — `src/models/Mnemonic.ts` -/

/-- An input-step subdocument as cast by Mongoose before validation: the
three declared string paths, each possibly absent. -/
structure StoredStep where
  type : Option String
  value : Option String
  key : Option String
deriving DecidableEq, Repr

/-- Mongoose casting of a JSON value into `InputStepSchema`: only objects
cast successfully, declared string paths must hold strings, and undeclared
fields are dropped. -/
def castStep (j : Json) : Option StoredStep :=
  match j with
  | .obj _ =>
    let getStr (k : String) : Option (Option String) :=
      match j.getField k with
      | none => some none
      | some (.str s) => some (some s)
      | some _ => none
    match getStr "type", getStr "value", getStr "key" with
    | some t, some v, some k => some ⟨t, v, k⟩
    | _, _, _ => none
  | _ => none

/-- JavaScript falsiness of an optional string (`undefined` or `""`). -/
def optFalsy : Option String → Bool
  | none => true
  | some s => s = ""

/-- Validation of one `InputStepSchema` subdocument, combining the
`pre('validate')` hook with the path validators:
the hook invalidates a `text` step with a falsy `value` and a `key` step
with a falsy `key`, and strips stray `value`/`key` fields from an `enter`
step; the paths then require `type` to be a non-empty member of the enum,
`value` to be a non-empty string when `type` is `text` (Mongoose's string
`checkRequired` treats `""` as missing), `key` to be non-empty when `type`
is `key`, and any present `key` to be in the seven-key enum. -/
def schemaValidInputStep (st : StoredStep) : Bool :=
  let hookOk :=
    !(st.type == some "text" && optFalsy st.value) &&
    !(st.type == some "key" && optFalsy st.key)
  let st1 := if st.type == some "enter" then { st with value := none, key := none } else st
  hookOk &&
  (match st1.type with
   | some t => t ≠ "" && ["text", "enter", "key"].contains t
   | none => false) &&
  (if st1.type == some "text" then !(optFalsy st1.value) else true) &&
  (if st1.type == some "key" then !(optFalsy st1.key) else true) &&
  (match st1.key with
   | some k => keyNames.contains k
   | none => true)

/-- Validation of the `commands` path of `MnemonicSchema` on save: the
array-level validator requires at least one command, each command string is
required (non-empty after the schema's `trim: true`), and every input-step
subdocument must cast and validate. -/
def mnemonicSchemaAcceptsCommands (cc : List CleanCommand) : Bool :=
  cc.length > 0 &&
  cc.all (fun c =>
    jsTrim c.command ≠ "" &&
    c.inputs.all (fun j =>
      match castStep j with
      | some st => schemaValidInputStep st
      | none => false))

/-! ## The create/update command pipelines -/

/-- Outcome of the commands-processing part of `POST /api/mnemonics`
(the hybrid handler in `src/app/api/mnemonics/route.ts`). -/
inductive PostResult where
  | missingFields : PostResult
  | invalidCommands : PostResult
  | schemaRejected : PostResult
  | created (commands : List CleanCommand) : PostResult


/-- The commands path of the create handler: `!commands` yields the 400
missing-fields response, a failing `validateMnemonicCommands` yields the 400
invalid-commands response, then `cleanCommands` normalizes and
`mnemonic.save()` runs the schema validation, whose failure is caught and
returned as a 400 `Validation failed` response. -/
def postCommandsPipeline (commands : Json) : PostResult :=
  if !commands.truthy then .missingFields
  else if !(validateMnemonicCommands commands) then .invalidCommands
  else
    let cc := cleanCommands (match commands with | .arr l => l | _ => [])
    if mnemonicSchemaAcceptsCommands cc then .created cc else .schemaRejected

/-- Outcome of the commands-processing part of `PUT /api/mnemonics/[id]`. -/
inductive PutResult where
  | missingFields : PutResult
  | invalidCommands : PutResult
  | persisted (commands : List CleanCommand) : PutResult


/-- The commands path of the update handler: the same request-level checks
and `cleanCommands` normalization as the create handler, but persistence
goes through `db.collection("mnemonics").updateOne` with a raw `$set`,
which bypasses the Mongoose schema validation entirely. -/
def putCommandsPipeline (commands : Json) : PutResult :=
  if !commands.truthy then .missingFields
  else if !(validateMnemonicCommands commands) then .invalidCommands
  else .persisted (cleanCommands (match commands with | .arr l => l | _ => []))

/-! ## Bearer-token verification — `src/lib/tokens.ts` and the
`verifyAuth` middleware -/

/-- `extractTokenFromHeader` from `src/lib/tokens.ts`: a missing or falsy
header, or one without the `Bearer ` magic, yields `null`; otherwise the
prefix is stripped (`substring(7)`). -/
def extractTokenFromHeader (authorization : Option String) : Option String :=
  match authorization with
  | none => none
  | some a =>
    if a = "" then none
    else if ("Bearer ".data).isPrefixOf a.data then some (String.mk (a.data.drop 7))
    else none

/-- `verifyHashedToken` from `src/lib/tokens.ts`: decrypt the stored form
and compare it byte-for-byte with the presented token; a decryption
exception is caught and reported as `false`.  The reversible decryption is
abstracted as a fallible function parameter. -/
def verifyHashedToken (decrypt : String → Option String) (token hashedToken : String) : Bool :=
  match decrypt hashedToken with
  | some decrypted => decrypted = token
  | none => false

/-- The payload embedded in a signed bearer token. -/
structure TokenPayload where
  userId : String
  email : String
  tokenId : String
deriving DecidableEq

/-- A persisted `Token` record. -/
structure TokenRecord where
  userId : String
  tokenId : String
  name : String
  hashedToken : String
  lastUsed : Option Nat
deriving DecidableEq

/-- A persisted `User` record. -/
structure UserRecord where
  id : String
  email : String
  name : String
  image : Option String
deriving DecidableEq

/-- The database state read by `verifyAuth`. -/
structure AuthDb where
  tokens : List TokenRecord
  users : List UserRecord

/-- The user data returned by a successful `verifyAuth`. -/
structure AuthenticatedUser where
  id : String
  email : String
  name : String
  image : Option String
  tokenName : String
  tokenLastUsed : Option Nat
deriving DecidableEq

/-- Outcome of `verifyAuth`: the authenticated user, or an error response
with an HTTP status. -/
inductive VerifyOutcome where
  | ok (user : AuthenticatedUser) : VerifyOutcome
  | err (status : Nat) (error : String) : VerifyOutcome
deriving DecidableEq

/-- `verifyAuth` from the auth middleware (`src/lib/authMiddleware.ts`):
extract the bearer token, verify signature and expiry (`jwt.verify` is
abstracted as `jwtVerify`, returning `none` on any signature or expiry
failure), look up the stored record by the `(userId, tokenId)` pair decoded
from the token, treat absence as revocation, decrypt-compare against the
stored hashed form, then resolve the user by email.  The `lastUsed`
timestamp is set to the current time before the user lookup; the best-effort
`tokenDoc.save()` side effect does not alter the outcome and is not
returned. -/
def verifyAuth (jwtVerify : String → Option TokenPayload)
    (decrypt : String → Option String) (db : AuthDb) (now : Nat)
    (authorization : Option String) : VerifyOutcome :=
  match extractTokenFromHeader authorization with
  | none => .err 401 "Authorization header required"
  | some token =>
    match jwtVerify token with
    | none => .err 401 "Invalid or expired token"
    | some payload =>
      match db.tokens.find? (fun t => t.userId = payload.userId && t.tokenId = payload.tokenId) with
      | none => .err 401 "Token has been revoked"
      | some tokenDoc =>
        -- the source early-returns on `!verifyHashedToken(...)`; the branch
        -- order is inverted here
        if verifyHashedToken decrypt token tokenDoc.hashedToken then
          match db.users.find? (fun u => u.email = payload.userId) with
          | none => .err 404 "User not found"
          | some user =>
            .ok ⟨user.id, user.email, user.name, user.image, tokenDoc.name, some now⟩
        else .err 401 "Invalid token"

/-! ## Hybrid authentication — `src/lib/hybridAuth.ts` -/

/-- The identity resolved by `hybridAuth`. -/
structure HybridUser where
  id : String
  email : String
  name : String
  image : Option String
deriving DecidableEq

/-- Outcome of `hybridAuth`: an identity tagged with its source
(`"session"` or `"token"`), or an error response. -/
inductive HybridOutcome where
  | ok (user : HybridUser) (source : String) : HybridOutcome
  | err (status : Nat) (error : String) : HybridOutcome
deriving DecidableEq

/-- The fixed error returned when both authentication methods fail. -/
def hybridAuthFailure : HybridOutcome :=
  .err 401 "Authentication required. Please login via web portal or provide a valid Bearer token."

/-- The Bearer-token fallback branch of `hybridAuth`: any `verifyAuth`
failure, whatever its status or message, is replaced by the one fixed
authentication error. -/
def hybridTokenFallback (jwtVerify : String → Option TokenPayload)
    (decrypt : String → Option String) (db : AuthDb) (now : Nat)
    (authorization : Option String) : HybridOutcome :=
  match verifyAuth jwtVerify decrypt db now authorization with
  | .ok u => .ok ⟨u.email, u.email, u.name, u.image⟩ "token"
  | .err _ _ => hybridAuthFailure

/-- `hybridAuth` from `src/lib/hybridAuth.ts`: try the browser session
first (`session?.user?.email` must be present and truthy; a session lookup
that throws is caught and treated as no session, so the session attempt is
modelled by the optional email/name/image it may yield), fall back to
Bearer-token verification, and fail with the single fixed 401 otherwise.
`session.user.name || session.user.email` defaults a falsy name to the
email. -/
def hybridAuth (sessionEmail sessionName sessionImage : Option String)
    (jwtVerify : String → Option TokenPayload) (decrypt : String → Option String)
    (db : AuthDb) (now : Nat) (authorization : Option String) : HybridOutcome :=
  match sessionEmail with
  | some e =>
    if e = "" then hybridTokenFallback jwtVerify decrypt db now authorization
    else
      .ok ⟨e, e,
           (match sessionName with
            | some n => if n = "" then e else n
            | none => e),
           sessionImage⟩ "session"
  | none => hybridTokenFallback jwtVerify decrypt db now authorization

/-! ## Folder deletion — `DELETE /api/folders/[id]` (hybrid handler) -/

/-- A persisted `Folder` record. -/
structure FolderRecord where
  id : String
  userId : String
  name : String
deriving DecidableEq

/-- A persisted `Mnemonic` record (the fields the delete handler reads). -/
structure MnemonicRecord where
  id : String
  userId : String
  folderId : Option String
  name : String
deriving DecidableEq

/-- The database state touched by the folder delete handler. -/
structure PortalDb where
  folders : List FolderRecord
  mnemonics : List MnemonicRecord
deriving DecidableEq

/-- Outcome of the folder delete handler: the 404 not-found response, or
the success response carrying `deletedMnemonics`. -/
inductive DeleteOutcome where
  | notFound : DeleteOutcome
  | deleted (deletedMnemonics : Nat) : DeleteOutcome
deriving DecidableEq

/-- The `DELETE /api/folders/[id]` handler after a successful hybrid
authentication as `userEmail`: find the folder by `(_id, userId)` (404 when
absent), `Mnemonic.deleteMany({folderId})` removes every mnemonic whose
`folderId` equals the folder id and reports its `deletedCount`, then
`Folder.deleteOne({_id})` removes the folder (ids are unique, so the filter
removes exactly that document). -/
def deleteFolderHandler (db : PortalDb) (userEmail folderId : String) :
    PortalDb × DeleteOutcome :=
  match db.folders.find? (fun f => f.id = folderId && f.userId = userEmail) with
  | none => (db, .notFound)
  | some _ =>
    let removed := db.mnemonics.filter (fun m => m.folderId = some folderId)
    let kept := db.mnemonics.filter (fun m => !(m.folderId = some folderId))
    ({ folders := db.folders.filter (fun f => !(f.id = folderId)), mnemonics := kept },
     .deleted removed.length)

/-! ## Theorems -/

/-- C4: migration is idempotent.  Every non-empty command array already in
the current object shape (the migration layer classifies shape by the first
element, so a current-shape array has one) is returned unchanged by
`migrateCommands`, and applying `migrateCommands` twice to any input equals
applying it once. -/
theorem migrateCommands_idempotent :
    (∀ l : List MigCommand, l ≠ [] → migrateCommands (.cmds l) = l) ∧
    (∀ v : CommandsVal, migrateCommands (.cmds (migrateCommands v)) = migrateCommands v) := by
  constructor
  · intro l hl
    cases l with
    | nil => exact absurd rfl hl
    | cons a m => rfl
  · intro v
    match v with
    | .strs [] => rfl
    | .cmds [] => rfl
    | .cmds (a :: m) => rfl
    | .strs (a :: m) => rfl

/-- Witness for C4 at a concrete current-shape array. -/
theorem migrateCommands_idempotent_witness :
    migrateCommands (.cmds [⟨"git push", [.stepEnter]⟩]) = [⟨"git push", [.stepEnter]⟩] :=
  migrateCommands_idempotent.left _ (List.cons_ne_nil _ _)

/-- C2 counterexample: `migrateCommands` does not convert the freeform
strings of an intermediate-shape element's `inputs` into `text` input
steps; the element is passed through with its strings intact. -/
theorem migrateCommands_no_text_conversion :
    migrateCommands (.cmds [⟨"npm login", [.str "myuser"]⟩]) =
      [⟨"npm login", [.str "myuser"]⟩] ∧
    migrateCommands (.cmds [⟨"npm login", [.str "myuser"]⟩]) ≠
      [⟨"npm login", [.stepText "myuser"]⟩] := by
  exact ⟨rfl, by decide⟩

/-- C2 amended: `migrateCommands` returns every non-empty
intermediate-shape commands value (objects whose `inputs` entries are all
freeform strings) unchanged — in particular no `{type: "text", value: s}`
step is created and no Enter step is inserted. -/
theorem migrateCommands_shapeB_passthrough (l : List MigCommand) (hne : l ≠ [])
    (hB : ∀ c ∈ l, ∀ i ∈ c.inputs, ∃ s, i = MigInput.str s) :
    migrateCommands (.cmds l) = l := by
  cases l with
  | nil => exact absurd rfl hne
  | cons a m => rfl

/-- Witness for the amended C2 at a concrete intermediate-shape array. -/
theorem migrateCommands_shapeB_passthrough_witness :
    migrateCommands (.cmds [⟨"npm login", [.str "myuser"]⟩]) =
      [⟨"npm login", [.str "myuser"]⟩] := by
  apply migrateCommands_shapeB_passthrough _ (List.cons_ne_nil _ _)
  intro c hc i hi
  rw [List.mem_singleton] at hc
  subst hc
  rw [List.mem_singleton] at hi
  exact ⟨"myuser", hi⟩

/-- C7 counterexample: name validation is not exactly the regex
`^[a-z][a-z0-9-_]{0,49}$` — it accepts `" deploy"`, which does not match
the regex (leading space), because the name is trimmed before the test. -/
theorem validateMnemonicName_accepts_untrimmed :
    validateMnemonicName " deploy" = true ∧ nameRegexTest " deploy" = false := by
  exact ⟨rfl, rfl⟩

/-- C7 amended: name validation accepts exactly the names whose
whitespace-trimmed form matches `^[a-z][a-z0-9-_]{0,49}$`; in particular
it rejects `"Deploy"`, `"1abc"` and a 51-character name without
surrounding whitespace, and accepts `"deploy-prod_2"`. -/
theorem validateMnemonicName_spec :
    (∀ s : String, validateMnemonicName s = true ↔ nameRegexTest (jsTrim s) = true) ∧
    validateMnemonicName "Deploy" = false ∧
    validateMnemonicName "1abc" = false ∧
    validateMnemonicName (String.mk (List.replicate 51 'a')) = false ∧
    validateMnemonicName "deploy-prod_2" = true := by
  refine ⟨?_, rfl, rfl, ?_, rfl⟩
  · intro s
    unfold validateMnemonicName
    by_cases h1 : s = ""
    · subst h1; decide
    · rw [if_neg h1]
      by_cases h2 : jsTrim s = ""
      · rw [if_pos h2, h2]; decide
      · rw [if_neg h2]
  · decide

/-- Witness for the amended C7 at a concrete name. -/
theorem validateMnemonicName_spec_witness :
    validateMnemonicName "deploy-prod_2" = true ↔ nameRegexTest (jsTrim "deploy-prod_2") = true :=
  validateMnemonicName_spec.1 "deploy-prod_2"

/-- C8: deleting a folder owned by the requesting user removes every
mnemonic whose `folderId` references it, keeps every other mnemonic,
removes the folder, and reports the number of deleted mnemonics as
`deletedMnemonics`. -/
theorem deleteFolderHandler_cascades (db : PortalDb) (u fid : String) (f : FolderRecord)
    (hf : db.folders.find? (fun g => g.id = fid && g.userId = u) = some f) :
    (∀ m ∈ (deleteFolderHandler db u fid).1.mnemonics, m.folderId ≠ some fid) ∧
    (∀ m ∈ db.mnemonics, m.folderId ≠ some fid → m ∈ (deleteFolderHandler db u fid).1.mnemonics) ∧
    (∀ g ∈ (deleteFolderHandler db u fid).1.folders, g.id ≠ fid) ∧
    (deleteFolderHandler db u fid).2 =
      .deleted (db.mnemonics.filter (fun m => m.folderId = some fid)).length := by
  have hred : deleteFolderHandler db u fid =
      ({ folders := db.folders.filter (fun g => !(g.id = fid)),
         mnemonics := db.mnemonics.filter (fun m => !(m.folderId = some fid)) },
       .deleted (db.mnemonics.filter (fun m => m.folderId = some fid)).length) := by
    unfold deleteFolderHandler
    rw [hf]
  rw [hred]
  refine ⟨?_, ?_, ?_, rfl⟩
  · intro m hm
    have := (List.mem_filter.mp hm).2
    simpa using this
  · intro m hm hne
    exact List.mem_filter.mpr ⟨hm, by simpa using hne⟩
  · intro g hg
    have := (List.mem_filter.mp hg).2
    simpa using this

/-- Witness for C8: deleting a folder that owns 3 mnemonics removes all 3
and reports `deletedMnemonics: 3`. -/
theorem deleteFolderHandler_cascades_witness :
    (deleteFolderHandler
      ⟨[⟨"f1", "u@example.com", "deploys"⟩],
       [⟨"m1", "u@example.com", some "f1", "one"⟩,
        ⟨"m2", "u@example.com", some "f1", "two"⟩,
        ⟨"m3", "u@example.com", some "f1", "three"⟩,
        ⟨"m4", "u@example.com", none, "unfiled"⟩]⟩
      "u@example.com" "f1").2 = .deleted 3 :=
  (deleteFolderHandler_cascades _ "u@example.com" "f1" ⟨"f1", "u@example.com", "deploys"⟩
    (by rfl)).2.2.2

/-- C5 counterexample: a verification failure that is not reported as an
authentication error.  With a structurally valid, unexpired, unrevoked
token whose decrypt-compare succeeds but whose user record is absent,
`verifyAuth` reports a 404 not-found error, not a 401 authentication
error. -/
theorem verifyAuth_unknown_user_404 :
    verifyAuth
      (fun t => if t = "tok" then some ⟨"u@example.com", "u@example.com", "tid1"⟩ else none)
      (fun h => if h = "enc" then some "tok" else none)
      ⟨[⟨"u@example.com", "tid1", "cli", "enc", none⟩], []⟩ 5 (some "Bearer tok") =
      .err 404 "User not found" ∧ (404 : Nat) ≠ 401 := by
  exact ⟨rfl, by decide⟩

/-- C5 amended: token verification looks up the stored record by the
`(userId, tokenId)` pair decoded from the presented token and treats
absence of that record as revocation; every verification failure up to and
including the decrypt-compare (missing header, bad signature or expiry,
revoked record, mismatch) is reported as a 401 authentication error, while
an unknown user after successful token verification is reported as a 404
not-found error. -/
theorem verifyAuth_failure_statuses (jwtVerify : String → Option TokenPayload)
    (decrypt : String → Option String) (db : AuthDb) (now : Nat)
    (authorization : Option String) :
    (∀ s m, verifyAuth jwtVerify decrypt db now authorization = .err s m →
       s = 401 ∨ (s = 404 ∧ m = "User not found")) ∧
    (∀ token payload, extractTokenFromHeader authorization = some token →
       jwtVerify token = some payload →
       db.tokens.find? (fun t => t.userId = payload.userId && t.tokenId = payload.tokenId) = none →
       verifyAuth jwtVerify decrypt db now authorization = .err 401 "Token has been revoked") := by
  constructor
  · intro s m h
    rcases hx : extractTokenFromHeader authorization with _ | token
    · simp only [verifyAuth, hx] at h
      cases h
      exact Or.inl rfl
    · simp only [verifyAuth, hx] at h
      rcases hj : jwtVerify token with _ | payload
      · simp only [hj] at h
        cases h
        exact Or.inl rfl
      · simp only [hj] at h
        rcases hr : db.tokens.find?
            (fun t => t.userId = payload.userId && t.tokenId = payload.tokenId) with _ | tokenDoc
        · simp only [hr] at h
          cases h
          exact Or.inl rfl
        · simp only [hr] at h
          rcases hv : verifyHashedToken decrypt token tokenDoc.hashedToken with _ | _
          · simp only [hv, if_false, Bool.false_eq_true, if_neg] at h
            cases h
            exact Or.inl rfl
          · simp only [hv, if_true] at h
            rcases hu : db.users.find? (fun u => u.email = payload.userId) with _ | user
            · simp only [hu] at h
              cases h
              exact Or.inr ⟨rfl, rfl⟩
            · simp only [hu] at h
              cases h
  · intro token payload hx hj hr
    unfold verifyAuth
    simp only [hx, hj, hr]

/-- Witness for the amended C5: a revoked token (no stored record for the
decoded `(userId, tokenId)` pair) fails with the 401 revocation error. -/
theorem verifyAuth_failure_statuses_witness :
    verifyAuth
      (fun t => if t = "tok" then some ⟨"u@example.com", "u@example.com", "tid1"⟩ else none)
      (fun _ => none) ⟨[], []⟩ 5 (some "Bearer tok") =
      .err 401 "Token has been revoked" :=
  (verifyAuth_failure_statuses _ _ _ _ _).2 "tok" ⟨"u@example.com", "u@example.com", "tid1"⟩
    rfl rfl rfl

/-- C6: the hybrid resolver tries the browser session first (a truthy
session email wins with `source = "session"` regardless of any Bearer
state), and when the session yields nothing and Bearer verification fails
— whatever the header, signature, revocation or lookup failure — it
returns the one fixed 401 authentication error, so the response does not
reveal which method was attempted or why it failed. -/
theorem hybridAuth_resolution (sessionEmail sessionName sessionImage : Option String)
    (jwtVerify : String → Option TokenPayload) (decrypt : String → Option String)
    (db : AuthDb) (now : Nat) (authorization : Option String) :
    ((∀ e, sessionEmail = some e → e = "") →
     (∀ u, verifyAuth jwtVerify decrypt db now authorization ≠ .ok u) →
     hybridAuth sessionEmail sessionName sessionImage jwtVerify decrypt db now authorization =
       .err 401 "Authentication required. Please login via web portal or provide a valid Bearer token.") ∧
    (∀ e, sessionEmail = some e → e ≠ "" →
     ∃ u, hybridAuth sessionEmail sessionName sessionImage jwtVerify decrypt db now authorization =
       .ok u "session") := by
  constructor
  · intro hsess htok
    have hfall : hybridTokenFallback jwtVerify decrypt db now authorization = hybridAuthFailure := by
      unfold hybridTokenFallback
      rcases hv : verifyAuth jwtVerify decrypt db now authorization with u | ⟨s, m⟩
      · exact absurd hv (htok u)
      · rfl
    unfold hybridAuth
    rcases he : sessionEmail with _ | e
    · simp only [hfall]
      rfl
    · have he0 : e = "" := hsess e he
      subst he0
      simp only [hfall]
      rfl
  · intro e he hne
    unfold hybridAuth
    rw [he]
    refine ⟨⟨e, e,
      match sessionName with
      | some n => if n = "" then e else n
      | none => e, sessionImage⟩, ?_⟩
    simp [hne]

/-- Shared characterization of the `src/lib/tokens.ts` step validator:
acceptance is exactly membership in the three-shape union, expressed through
field lookups (every non-object value has no fields, so all three disjuncts
fail on it). -/
theorem isValidInputStep_eq_true_iff (step : Json) :
    isValidInputStep step = true ↔
      ((step.getField "type" = some (.str "text") ∧
        ∃ s, step.getField "value" = some (.str s)) ∨
       step.getField "type" = some (.str "enter") ∨
       (step.getField "type" = some (.str "key") ∧
        ∃ k, step.getField "key" = some (.str k) ∧ k ∈ keyNames)) := by
  cases step with
  | obj fields =>
    simp only [isValidInputStep]
    rcases ht : Json.getField (Json.obj fields) "type" with _ | jt
    · simp
    · cases jt with
      | str t =>
        by_cases h1 : t = "text"
        · subst h1
          rcases hv : Json.getField (Json.obj fields) "value" with _ | jv
          · simp
          · cases jv <;> simp
        · by_cases h2 : t = "enter"
          · subst h2
            simp
          · by_cases h3 : t = "key"
            · subst h3
              rcases hk : Json.getField (Json.obj fields) "key" with _ | jk
              · simp
              · cases jk with
                | str k => simp [List.elem_iff]
                | null => simp
                | bool b => simp
                | num n => simp
                | arr l => simp
                | obj f2 => simp
            · simp [h1, h2, h3]
      | _ => simp
  | null => simp [isValidInputStep, Json.getField]
  | bool b => simp [isValidInputStep, Json.getField]
  | num n => simp [isValidInputStep, Json.getField]
  | str s => simp [isValidInputStep, Json.getField]
  | arr l => simp [isValidInputStep, Json.getField]

/-- The `src/types/mnemonic.ts` request validator accepts exactly the same
three-shape union (field-lookup characterization shared with the
`src/lib/tokens.ts` validator). -/
theorem mnemonicIsValidInputStep_eq_true_iff (step : Json) :
    mnemonicIsValidInputStep step = true ↔
      ((step.getField "type" = some (.str "text") ∧
        ∃ s, step.getField "value" = some (.str s)) ∨
       step.getField "type" = some (.str "enter") ∨
       (step.getField "type" = some (.str "key") ∧
        ∃ k, step.getField "key" = some (.str k) ∧ k ∈ keyNames)) := by
  cases step with
  | obj fields =>
    simp only [mnemonicIsValidInputStep, isTextStep, isEnterStep, isKeyStep,
      Json.truthy, Bool.true_and, Bool.or_eq_true]
    rcases ht : Json.getField (Json.obj fields) "type" with _ | jt
    · simp
    · cases jt with
      | str t =>
        by_cases h1 : t = "text"
        · subst h1
          rcases hv : Json.getField (Json.obj fields) "value" with _ | jv
          · simp
          · cases jv <;> simp
        · by_cases h2 : t = "enter"
          · subst h2
            simp
          · by_cases h3 : t = "key"
            · subst h3
              rcases hk : Json.getField (Json.obj fields) "key" with _ | jk
              · simp
              · cases jk with
                | str k => simp [List.elem_iff]
                | null => simp
                | bool b => simp
                | num n => simp
                | arr l => simp
                | obj f2 => simp
            · simp [h1, h2, h3]
      | _ => simp
  | null => simp [mnemonicIsValidInputStep, isTextStep, isEnterStep, isKeyStep,
      Json.getField, Json.truthy]
  | bool b => simp [mnemonicIsValidInputStep, isTextStep, isEnterStep, isKeyStep,
      Json.getField, Json.truthy]
  | num n => simp [mnemonicIsValidInputStep, isTextStep, isEnterStep, isKeyStep,
      Json.getField, Json.truthy]
  | str s => simp [mnemonicIsValidInputStep, isTextStep, isEnterStep, isKeyStep,
      Json.getField, Json.truthy]
  | arr l => simp [mnemonicIsValidInputStep, isTextStep, isEnterStep, isKeyStep,
      Json.getField, Json.truthy]

/-- The two InputStep validators of the repository decide the same set. -/
theorem mnemonic_validator_agrees (step : Json) :
    mnemonicIsValidInputStep step = isValidInputStep step := by
  have h1 := mnemonicIsValidInputStep_eq_true_iff step
  have h2 := isValidInputStep_eq_true_iff step
  rw [← h2] at h1
  cases hm : mnemonicIsValidInputStep step <;> cases hi : isValidInputStep step <;> try rfl
  · have := h1.mpr hi
    rw [hm] at this
    cases this
  · have := h1.mp hm
    rw [hi] at this
    cases this

/-- C1: the InputStep validator is a pure predicate accepting exactly the
three union shapes — `text` iff a string `value` field is present (the
empty string included), `enter` regardless of other fields, `key` iff `key`
is one of the seven named keys — and it accepts nothing but objects, so
every non-object, every object with another `type`, and every `key` object
with an out-of-range key is rejected.  The request-side copy of the
validator in `src/types/mnemonic.ts` decides the same set. -/
theorem isValidInputStep_spec (step : Json) :
    (isValidInputStep step = true ↔
      ((step.getField "type" = some (.str "text") ∧
        ∃ s, step.getField "value" = some (.str s)) ∨
       step.getField "type" = some (.str "enter") ∨
       (step.getField "type" = some (.str "key") ∧
        ∃ k, step.getField "key" = some (.str k) ∧ k ∈ keyNames))) ∧
    (isValidInputStep step = true → ∃ fields, step = Json.obj fields) ∧
    mnemonicIsValidInputStep step = isValidInputStep step := by
  refine ⟨isValidInputStep_eq_true_iff step, ?_, mnemonic_validator_agrees step⟩
  intro h
  cases step with
  | obj fields => exact ⟨fields, rfl⟩
  | null => exact absurd h (by decide)
  | bool b => exact absurd h (by cases b <;> decide)
  | num n => exact absurd h (by simp [isValidInputStep])
  | str s => exact absurd h (by simp [isValidInputStep])
  | arr l => exact absurd h (by simp [isValidInputStep])

/-- Witness for C1 at a concrete `enter` step carrying an extra field. -/
theorem isValidInputStep_spec_witness :
    ∃ fields, (Json.obj [("type", Json.str "enter"), ("extra", Json.num 1)]) = Json.obj fields :=
  (isValidInputStep_spec (Json.obj [("type", Json.str "enter"), ("extra", Json.num 1)])).2.1 rfl

/-- C9: every input step the Mnemonic schema accepts with type `text` has a
non-empty `value` — the schema treats `""` as missing — while the
request-level validator accepts `{type: "text", value: ""}`, so the
concrete command array using that step passes request validation in the
create handler and is then rejected by the save-time schema validation. -/
theorem schemaText_requires_nonempty_value :
    (∀ st : StoredStep, schemaValidInputStep st = true → st.type = some "text" →
       ∃ v, st.value = some v ∧ v ≠ "") ∧
    schemaValidInputStep ⟨some "text", some "", none⟩ = false ∧
    mnemonicIsValidInputStep (.obj [("type", .str "text"), ("value", .str "")]) = true ∧
    validateMnemonicCommands (.arr [.obj [("command", .str "echo hi"),
      ("inputs", .arr [.obj [("type", .str "text"), ("value", .str "")]])]]) = true ∧
    postCommandsPipeline (.arr [.obj [("command", .str "echo hi"),
      ("inputs", .arr [.obj [("type", .str "text"), ("value", .str "")]])]]) = .schemaRejected := by
  refine ⟨?_, rfl, rfl, rfl, rfl⟩
  intro st h ht
  rcases hsv : st.value with _ | v
  · unfold schemaValidInputStep at h
    rw [ht, hsv] at h
    simp [optFalsy] at h
  · refine ⟨v, rfl, ?_⟩
    intro hv0
    subst hv0
    unfold schemaValidInputStep at h
    rw [ht, hsv] at h
    simp [optFalsy] at h

/-- Witness for C9 at a concrete schema-valid text step. -/
theorem schemaText_requires_nonempty_value_witness :
    schemaValidInputStep ⟨some "text", some "ok", none⟩ = true ∧
    ∃ v, (⟨some "text", some "ok", none⟩ : StoredStep).value = some v ∧ v ≠ "" :=
  ⟨rfl, schemaText_requires_nonempty_value.1 ⟨some "text", some "ok", none⟩ rfl rfl⟩

/-- C3, evaluated at the failing input: the empty commands array passes the
request-level validation of both handlers (`[].every` is vacuously true);
the create handler's `save()` is then rejected by the schema's
at-least-one-command validator, but the update handler persists the empty
array because its raw `db.collection(...).updateOne` bypasses the schema. -/
theorem updateHandler_persists_empty_commands :
    validateMnemonicCommands (.arr []) = true ∧
    postCommandsPipeline (.arr []) = .schemaRejected ∧
    putCommandsPipeline (.arr []) = .persisted [] :=
  ⟨rfl, rfl, rfl⟩

/-- C10: every command produced by a successful `validateImportJson` has a
trimmed, non-empty command string, and every produced input step is exactly
one of the three variant shapes (`{type, value}`, `{type}`, `{type, key}`)
— any extra fields present on the incoming step are stripped. -/
theorem validateImportJson_normalizes (parsed : Json) (cs : List CleanCommand)
    (h : validateImportJson parsed = .valid cs) :
    ∀ c ∈ cs, (jsTrim c.command = c.command ∧ c.command ≠ "") ∧
      ∀ st ∈ c.inputs,
        (∃ v, st = Json.obj [("type", Json.str "text"), ("value", Json.str v)]) ∨
        st = Json.obj [("type", Json.str "enter")] ∨
        (∃ k, st = Json.obj [("type", Json.str "key"), ("key", Json.str k)]) := by
  rcases hg : (parsed.truthy && parsed.typeofObject) with _ | _
  · simp [validateImportJson, hg] at h
  · rcases hc : parsed.getField "commands" with _ | jc
    · simp [validateImportJson, hg, hc] at h
    · cases jc with
      | arr cmds =>
        by_cases hlen : cmds.length = 0
        · simp [validateImportJson, hg, hc, hlen] at h
        · by_cases hall : cmds.all isValidCommand = true
          · have hcs : cs = cmds.map convertImportCommand := by
              simp [validateImportJson, hg, hc, hlen, hall] at h
              exact h.symm
            subst hcs
            intro c hcmem
            obtain ⟨cmd, hcmdmem, hconv⟩ := List.mem_map.mp hcmem
            have hvalid : isValidCommand cmd = true :=
              List.all_eq_true.mp hall cmd hcmdmem
            cases cmd with
            | obj f =>
              rcases hcmd : Json.getField (Json.obj f) "command" with _ | jcm
              · simp [isValidCommand, hcmd] at hvalid
              · cases jcm with
                | str s =>
                  by_cases hts : jsTrim s = ""
                  · simp [isValidCommand, hcmd, hts] at hvalid
                  · rcases hin : Json.getField (Json.obj f) "inputs" with _ | jin
                    · simp [isValidCommand, hcmd, hts, hin] at hvalid
                    · cases jin with
                      | arr li =>
                        have hsteps : ∀ inp ∈ li, isValidInputStep inp = true := by
                          intro inp hinp
                          have : li.all isValidInputStep = true := by
                            simpa [isValidCommand, hcmd, hts, hin] using hvalid
                          exact List.all_eq_true.mp this inp hinp
                        have hcommand : c.command = jsTrim s := by
                          rw [← hconv]
                          simp [convertImportCommand, getStrField, hcmd]
                        have hinputs : c.inputs = li.map cleanupStep := by
                          rw [← hconv]
                          simp [convertImportCommand, getArrField, hin]
                        constructor
                        · rw [hcommand]
                          exact ⟨jsTrim_idem s, hts⟩
                        · intro st hst
                          rw [hinputs] at hst
                          obtain ⟨inp, hinp, hclean⟩ := List.mem_map.mp hst
                          have hv := (isValidInputStep_eq_true_iff inp).mp (hsteps inp hinp)
                          rcases hv with ⟨htype, v, hval⟩ | htype | ⟨htype, k, hkey, _⟩
                          · left
                            exact ⟨v, by rw [← hclean]; simp [cleanupStep, htype, hval]⟩
                          · right; left
                            rw [← hclean]
                            simp [cleanupStep, htype]
                          · right; right
                            exact ⟨k, by rw [← hclean]; simp [cleanupStep, htype, hkey]⟩
                      | null => simp [isValidCommand, hcmd, hts, hin] at hvalid
                      | bool b => simp [isValidCommand, hcmd, hts, hin] at hvalid
                      | num n => simp [isValidCommand, hcmd, hts, hin] at hvalid
                      | str s2 => simp [isValidCommand, hcmd, hts, hin] at hvalid
                      | obj f2 => simp [isValidCommand, hcmd, hts, hin] at hvalid
                | null => simp [isValidCommand, hcmd] at hvalid
                | bool b => simp [isValidCommand, hcmd] at hvalid
                | num n => simp [isValidCommand, hcmd] at hvalid
                | arr l2 => simp [isValidCommand, hcmd] at hvalid
                | obj f2 => simp [isValidCommand, hcmd] at hvalid
            | null => simp [isValidCommand] at hvalid
            | bool b => simp [isValidCommand] at hvalid
            | num n => simp [isValidCommand] at hvalid
            | str s2 => simp [isValidCommand] at hvalid
            | arr l2 => simp [isValidCommand] at hvalid
          · simp [validateImportJson, hg, hc, hlen, hall] at h
      | null => simp [validateImportJson, hg, hc] at h
      | bool b => simp [validateImportJson, hg, hc] at h
      | num n => simp [validateImportJson, hg, hc] at h
      | str s => simp [validateImportJson, hg, hc] at h
      | obj f => simp [validateImportJson, hg, hc] at h

/-- Witness for C10 at a concrete import payload whose text step carries an
extra field that the cleanup strips. -/
theorem validateImportJson_normalizes_witness :
    (jsTrim "git push" = "git push" ∧ "git push" ≠ "") :=
  ((validateImportJson_normalizes
    (Json.obj [("commands", Json.arr [Json.obj
      [("command", Json.str "  git push "),
       ("inputs", Json.arr [Json.obj
         [("type", Json.str "text"), ("value", Json.str "yes"), ("extra", Json.num 1)]])]])])
    [⟨"git push", [Json.obj [("type", Json.str "text"), ("value", Json.str "yes")]]⟩]
    rfl)
    ⟨"git push", [Json.obj [("type", Json.str "text"), ("value", Json.str "yes")]]⟩
    (List.mem_singleton.mpr rfl)).1

/-- Witness for C6: no session and no Authorization header yield the single
generic 401. -/
theorem hybridAuth_resolution_witness :
    hybridAuth none none none (fun _ => none) (fun _ => none) ⟨[], []⟩ 0 none =
      .err 401 "Authentication required. Please login via web portal or provide a valid Bearer token." :=
  (hybridAuth_resolution none none none (fun _ => none) (fun _ => none) ⟨[], []⟩ 0 none).1
    (fun e h => by cases h) (fun u h => by cases h)

end Portal
